import Mathlib

/-!
Shallow embedding of the daily-cleaning-summary script (src/main.py).

Record fields that the Python code reads with `dict.get` are modelled as
`Option` fields; Python truthiness (`x or default`) on string fields is
modelled by `strOr` (both `None` and `""` fall through to the default).
HTTP interactions are modelled as oracle functions: a paginated source is a
function from page number to an optional page payload (`none` models a
non-200 response), and the per-task detail endpoint is a function from task
id to an optional record.  Unbounded `while` loops are given explicit fuel;
all other structure follows the source line by line.
-/

namespace DailyCleaning

/-- An assignment record (entry of a task's `assignments` list). -/
structure Assignment where
  name : Option String
  type_task_user_status : Option String
  deriving Repr, DecidableEq

/-- A task record as returned by the task resource (both the paginated
listing and the per-task detail endpoint return this shape). -/
structure Task where
  id : Option Nat
  type_department : Option String
  type : Option String
  name : Option String
  finished_at : Option String
  assignments : List Assignment
  deriving Repr, DecidableEq

/-- A property record from the property resource. -/
structure PropRecord where
  id : Option Nat
  status : Option String
  name : Option String
  deriving Repr, DecidableEq

/-- A reservation record.  The code only ever reads `property_id` and
`checkout_date`; records matched by a `checkout_date` range filter carry the
field, so it is modelled as a plain string. -/
structure Reservation where
  property_id : Option Nat
  checkout_date : String
  deriving Repr, DecidableEq

/-- Python `d.get(k) or default` on a string field: `None` and `""` both
fall through to the default. -/
def strOr (o : Option String) (d : String) : String :=
  match o with
  | none => d
  | some s => if s = "" then d else s

/-- Python truthiness of an optional string: `None` and `""` are falsy. -/
def truthy (o : Option String) : Bool :=
  match o with
  | none => false
  | some s => s ≠ ""

/-- Python `dict` insertion `m[k] = v`: overwrite in place if the key is
present, else append (Python 3.7+ dicts preserve insertion order). -/
def dinsert {κ α : Type} [DecidableEq κ] (m : List (κ × α)) (k : κ) (v : α) :
    List (κ × α) :=
  if m.any (fun p => p.1 = k) then
    m.map (fun p => if p.1 = k then (k, v) else p)
  else m ++ [(k, v)]

/-- Python `dict.get`. -/
def dget {κ α : Type} [DecidableEq κ] (m : List (κ × α)) (k : κ) : Option α :=
  (m.find? (fun p => p.1 = k)).map Prod.snd

/-- Lexicographic comparison of character lists by code point, as Python
compares strings: element-wise, a strict prefix is smaller. -/
def charListLt : List Char → List Char → Bool
  | _, [] => false
  | [], _ :: _ => true
  | a :: as, b :: bs => if a < b then true else if b < a then false else charListLt as bs

/-- Python `a < b` on strings. -/
def strLt (a b : String) : Bool := charListLt a.data b.data

/-- Python `max(...)` over a list of strings; `none` for the empty list. -/
def maxString (l : List String) : Option String :=
  l.foldl (fun b s =>
    match b with
    | none => some s
    | some b' => if strLt b' s then some s else some b') none

/-! ## CleaningStatusResolver: `get_checkin_cleaning_status` (main.py lines 133-185) -/

/-- A page payload of the paginated task listing used in step 1 of
`get_checkin_cleaning_status`; `page` and `total_pages` are read with
`data.get(..., 1)`, hence optional with default 1. -/
structure TaskPage where
  results : List Task
  page : Option Nat
  total_pages : Option Nat

/-- Step 1 of `get_checkin_cleaning_status` (lines 138-152): gather all
pages of the windowed, department-filtered task query.  The department
filter is part of the query sent to the source (`type_department=housekeeping`
in the URL); the loop itself does no client-side filtering.  The `while url`
loop is given explicit fuel; `none` from the source models a non-200
response and stops the loop. -/
def fetchWindowTasks (src : Nat → Option TaskPage) : Nat → Nat → List Task → List Task
  | 0, _, acc => acc
  | fuel + 1, p, acc =>
    match src p with
    | none => acc
    | some d =>
      let acc2 := acc ++ d.results
      if d.total_pages.getD 1 ≤ d.page.getD 1 then acc2
      else fetchWindowTasks src fuel (d.page.getD 1 + 1) acc2

/-- Step 2 (lines 158-166): fetch each task's detail record; a task whose
`id` is falsy (`if not task_id`) is skipped, and a failed detail fetch
(`none`) drops just that task. -/
def detailPhase (detail : Nat → Option Task) (tasks : List Task) : List Task :=
  tasks.foldl (fun acc t =>
    match t.id with
    | none => acc
    | some i =>
      if i = 0 then acc
      else
        match detail i with
        | none => acc
        | some d => acc ++ [d]) []

/-- Sort key of line 176: `t.get("finished_at")` (always a non-empty string
on the completed tasks the key is applied to). -/
def keyOf (t : Task) : String := t.finished_at.getD ""

/-- One step of selecting the first-occurring task with maximal
`finished_at`. -/
def pickStep (b : Option Task) (t : Task) : Option Task :=
  match b with
  | none => some t
  | some b' => if strLt (keyOf b') (keyOf t) then some t else some b'

/-- Models lines 176-177: `completed_tasks.sort(key=..., reverse=True)`
followed by `completed_tasks[0]`.  Python's sort is stable (also with
`reverse=True`), so index 0 holds the first-occurring element with maximal
key; the fold replaces the current best only on a strictly greater key and
therefore selects exactly that element. -/
def pickLast (l : List Task) : Option Task := l.foldl pickStep none

/-- Line 179: `last_task.get("type") or last_task.get("name") or "Unnamed Task"`. -/
def taskLabel (t : Task) : String := strOr t.type (strOr t.name "Unnamed Task")

/-- Lines 180-182: first assignment's name when the assignments list is
non-empty and the name is truthy, else `"Unknown cleaner"`. -/
def cleanerOf (t : Task) : String :=
  match t.assignments with
  | [] => "Unknown cleaner"
  | a :: _ => strOr a.name "Unknown cleaner"

/-- Line 183: first 10 characters of `finished_at` when truthy. -/
def finishedDate (t : Task) : String :=
  if truthy t.finished_at then (t.finished_at.getD "").take 10 else "Unknown date"

/-- Line 185: the `"Ready - ..."` verdict string. -/
def mkReady (t : Task) : String :=
  "Ready - " ++ taskLabel t ++ " - Cleaned by " ++ cleanerOf t ++ " - " ++ finishedDate t

/-- Line 172: `[t for t in detailed_tasks if t.get("finished_at")]`. -/
def completedOf (l : List Task) : List Task := l.filter (fun t => truthy t.finished_at)

/-- Steps 3-4 (lines 171-185) applied to the gathered detail records. -/
def verdictFromDetails (detailed : List Task) : String :=
  match pickLast (completedOf detailed) with
  | none => "Dirty"
  | some t => mkReady t

/-- `get_checkin_cleaning_status` (lines 133-185) over a paginated window
source and a detail oracle.  The property id and dates only shape the query
the oracles answer, so they are absorbed into the oracles. -/
def get_checkin_cleaning_status (src : Nat → Option TaskPage)
    (detail : Nat → Option Task) (fuel : Nat) : String :=
  let all_tasks := fetchWindowTasks src fuel 1 []
  if all_tasks.isEmpty then "Dirty"
  else
    let detailed := detailPhase detail all_tasks
    if detailed.isEmpty then "Dirty"
    else verdictFromDetails detailed

/-! ## The three `len(results) < limit` pagination loops (lines 77-130)

All three fetchers share the same loop skeleton: request page `page`, stop
on a non-200 response (`none`), fold the batch into the accumulator, stop
when the raw batch is shorter than `limit`, else advance to the next page.
`pagedLoop` is that skeleton, instrumented with a request counter in the
second component; the `while True` loop is given explicit fuel. -/

/-- Shared pagination skeleton of `fetch_property_map`, `fetch_reservations`
and `fetch_tasks`; `g` folds one raw batch into the accumulator, and the
short-page test uses the raw batch length (as the source does). -/
def pagedLoop {ρ α : Type} (src : Nat → Option (List ρ)) (limit : Nat)
    (g : α → List ρ → α) : Nat → Nat → α → Nat → α × Nat
  | 0, _, acc, reqs => (acc, reqs)
  | fuel + 1, page, acc, reqs =>
    match src page with
    | none => (acc, reqs + 1)
    | some results =>
      let acc2 := g acc results
      if results.length < limit then (acc2, reqs + 1)
      else pagedLoop src limit g fuel (page + 1) acc2 (reqs + 1)

/-- Lines 86-88: keep a record only if `status == "active"`, store
`id -> name` with the `"Unnamed Property"` default. -/
def insertActive (m : List (Option Nat × String)) (p : PropRecord) :
    List (Option Nat × String) :=
  if p.status = some "active" then dinsert m p.id (strOr p.name "Unnamed Property") else m

/-- The per-record body of `fetch_property_map` applied to a whole record
stream (used both by the paginated fetcher and by the report, which consumes
the fetched stream). -/
def buildPropertyMap (props : List PropRecord) : List (Option Nat × String) :=
  props.foldl insertActive []

/-- `fetch_property_map` (lines 77-92): paginated property read, page size
100, keyed mapping of active properties.  Returns the mapping and the
number of page requests issued. -/
def fetch_property_map (src : Nat → Option (List PropRecord)) (fuel : Nat) :
    List (Option Nat × String) × Nat :=
  pagedLoop src 100 (fun m res => res.foldl insertActive m) fuel 1 [] 0

/-- `fetch_reservations` (lines 95-112): paginated reservation read, page
size 100; the date/direction only shape the query the source answers. -/
def fetch_reservations (src : Nat → Option (List Reservation)) (fuel : Nat) :
    List Reservation × Nat :=
  pagedLoop src 100 (fun acc res => acc ++ res) fuel 1 [] 0

/-- Line 125: the client-side department filter of `fetch_tasks`. -/
def housekeeping_only (ts : List Task) : List Task :=
  ts.filter (fun t => t.type_department = some "housekeeping")

/-- `fetch_tasks` (lines 115-130): paginated task read for one property and
date, page size 100, post-filtered to the housekeeping department; the
short-page test is on the raw (unfiltered) batch, as in the source. -/
def fetch_tasks (src : Nat → Option (List Task)) (fuel : Nat) :
    List Task × Nat :=
  pagedLoop src 100 (fun acc res => acc ++ housekeeping_only res) fuel 1 [] 0

/-! ## ReportBuilder: the `__main__` block (lines 214-311) and
`fetch_yesterday_cleanings` (lines 188-209)

The report is a pure function of the records the collaborators return in
one run.  `Env` packages those oracles: `propertyRecords` is the record
stream the property fetch yields, `checkins`/`checkouts` are the two
reservation query results (the code re-issues the checkout query inside the
check-in loop; a deterministic source returns the same list), `tasksToday`
and `tasksYesterday` are the raw task-query results per property id (the
report applies the `fetch_tasks` housekeeping filter to them), and
`statusOf` stands for the `get_checkin_cleaning_status` call. -/

structure Env where
  propertyRecords : List PropRecord
  checkins : List Reservation
  checkouts : List Reservation
  tasksToday : Option Nat → List Task
  tasksYesterday : Option Nat → List Task
  statusOf : Option Nat → String → String
  today : String
  yesterday : String
  ninetyDaysAgo : String

/-- Lines 240-245: maximum checkout date among today's checkout
reservations of the property, else the 90-day sentinel. -/
def lastCheckoutFor (env : Env) (pid : Option Nat) : String :=
  match maxString ((env.checkouts.filter (fun c => c.property_id = pid)).map
      (fun c => c.checkout_date)) with
  | some d => d
  | none => env.ninetyDaysAgo

/-- Line 248: one check-in verdict line. -/
def checkinLineFor (env : Env) (prop_name : String) (pid : Option Nat) : String :=
  "- " ++ prop_name ++ " - " ++ env.statusOf pid (lastCheckoutFor env pid)

/-- Loop body of lines 230-249 over the state (printed set, output lines). -/
def checkinStep (env : Env) (pm : List (Option Nat × String))
    (st : List String × List String) (res : Reservation) :
    List String × List String :=
  match dget pm res.property_id with
  | none => st
  | some prop_name =>
    if prop_name ∈ st.1 then st
    else (st.1 ++ [prop_name], st.2 ++ [checkinLineFor env prop_name res.property_id])

/-- The whole check-in loop (lines 229-249). -/
def checkinFold (env : Env) (pm : List (Option Nat × String)) :
    List String × List String :=
  env.checkins.foldl (checkinStep env pm) ([], [])

/-- The check-ins section body (lines 228-251): loop output, or the
placeholder when the fetched check-in list is empty. -/
def checkinLines (env : Env) (pm : List (Option Nat × String)) : List String :=
  if env.checkins.isEmpty then ["No check-ins today."] else (checkinFold env pm).2

/-- Lines 263-274: the status lines one task contributes under its
property. -/
def taskLines (prop_name : String) (task : Task) : List String :=
  match task.assignments with
  | [] => [prop_name ++ " - " ++ taskLabel task ++ " - Not assigned"]
  | a => a.map (fun assignment =>
      prop_name ++ " - " ++ taskLabel task ++ " - " ++
        strOr assignment.name "Not assigned" ++ " - " ++
        strOr assignment.type_task_user_status "Unknown")

/-- Lines 256-274: `cleaning_map`, keyed by property display name; a
property with a non-empty task list (re)binds its name to its lines. -/
def buildCleaningMap (env : Env) (pm : List (Option Nat × String)) :
    List (String × List String) :=
  pm.foldl (fun cm e =>
    let tasks := housekeeping_only (env.tasksToday e.1)
    if tasks.isEmpty then cm
    else dinsert cm e.2 (tasks.flatMap (taskLines e.2))) []

/-- Loop body of lines 278-289 over the state (checkout_props, output
lines). -/
def checkoutStep (pm : List (Option Nat × String)) (cm : List (String × List String))
    (st : List String × List String) (res : Reservation) :
    List String × List String :=
  match dget pm res.property_id with
  | none => st
  | some prop_name =>
    let cps := if prop_name ∈ st.1 then st.1 else st.1 ++ [prop_name]
    match dget cm prop_name with
    | some cleanings => (cps, st.2 ++ cleanings.map (fun c => "- " ++ c))
    | none => (cps, st.2 ++ ["- " ++ prop_name])

/-- The check-outs section (lines 276-291): returns the checkout-property
set (as a first-seen list) and the section's lines. -/
def checkoutState (env : Env) (pm : List (Option Nat × String))
    (cm : List (String × List String)) : List String × List String :=
  if env.checkouts.isEmpty then ([], ["No check-outs today."])
  else env.checkouts.foldl (checkoutStep pm cm) ([], [])

/-- Lines 296-300: lines of `cleaning_map` entries not in the checkout
set (emitted without the leading dash, as in the source). -/
def pendingCore (cm : List (String × List String)) (cps : List String) :
    List String :=
  cm.foldl (fun acc e => if e.1 ∈ cps then acc else acc ++ e.2) []

/-- Lines 294-302: the pending-cleanings section body, with its placeholder
when nothing was emitted (`has_pending` stays false exactly when the fold
appended no line). -/
def pendingSection (cm : List (String × List String)) (cps : List String) :
    List String :=
  let lines := pendingCore cm cps
  if lines.isEmpty then ["No pending cleanings today."] else lines

/-- Line 207: an assignment's completion status in the yesterday section. -/
def yStatus (task : Task) (a : Assignment) : String :=
  if a.type_task_user_status = some "completed" ∨ truthy task.finished_at = true
  then "Completed" else "Not completed"

/-- Lines 198-208: the yesterday-section lines of one task: the department
re-check of line 199, the silent skip of zero-assignment tasks (line 203),
then one line per assignment. -/
def yTaskLines (prop_name : String) (task : Task) : List String :=
  if task.type_department ≠ some "housekeeping" then []
  else
    match task.assignments with
    | [] => []
    | a => a.map (fun assignment =>
        "- " ++ prop_name ++ " - " ++ taskLabel task ++ " - " ++
          strOr assignment.name "Unknown" ++ " - " ++ yStatus task assignment)

/-- `fetch_yesterday_cleanings` (lines 188-209) as the list of output lines
before the join: the section header, then per active property the lines of
its yesterday tasks (`if not tasks: continue` on line 196-197). -/
def yesterdayLines (env : Env) : List String :=
  let pm := buildPropertyMap env.propertyRecords
  ("\nYesterday’s Cleaning Summary (" ++ env.yesterday ++ ")") ::
    pm.flatMap (fun e =>
      let tasks := housekeeping_only (env.tasksYesterday e.1)
      if tasks.isEmpty then []
      else tasks.flatMap (yTaskLines e.2))

/-- Line 209: `"\n".join(output)`. -/
def fetch_yesterday_cleanings (env : Env) : String :=
  String.intercalate "\n" (yesterdayLines env)

/-- The `__main__` report assembly (lines 220-311): the three today
sections joined into `final_message`, then the yesterday message appended
with a blank line, yielding `combined_message`. -/
def mainReport (env : Env) : String :=
  let pm := buildPropertyMap env.propertyRecords
  let cm := buildCleaningMap env pm
  let co := checkoutState env pm cm
  let output :=
    [("Today’s Cleaning Summary (" ++ env.today ++ ")\n"), "Check-ins today:"]
      ++ checkinLines env pm
      ++ ["\nCheck-outs today:"] ++ co.2
      ++ ["\nPending cleanings:"] ++ pendingSection cm co.1
  String.intercalate "\n" output ++ "\n\n" ++ fetch_yesterday_cleanings env

/-! ## Spec-side definitions and concrete fixtures -/

/-- A well-behaved paginated source holding `records`: page `p` answers the
`p`-th `limit`-sized chunk (empty once the records run out). -/
def chunkSrc {ρ : Type} (records : List ρ) (limit : Nat) : Nat → Option (List ρ) :=
  fun p => some ((records.drop ((p - 1) * limit)).take limit)

/-- One step of collecting the first-seen reservation per resolvable
property name. -/
def firstStep (pm : List (Option Nat × String))
    (acc : List (String × Reservation)) (res : Reservation) :
    List (String × Reservation) :=
  match dget pm res.property_id with
  | none => acc
  | some n => if acc.any (fun e => e.1 = n) then acc else acc ++ [(n, res)]

/-- Spec-side description of the check-in deduplication: the first-seen
reservation per resolvable property name, in order of first appearance.
Stated from the spec's words for comparison with the loop of lines
229-249. -/
def firstPerName (pm : List (Option Nat × String)) (rs : List Reservation) :
    List (String × Reservation) :=
  rs.foldl (firstStep pm) []

/-- Splits a character list at newlines (verification-side helper for
talking about the lines of an assembled message). -/
def splitLinesAux : List Char → List Char → List String
  | [], cur => [String.mk cur.reverse]
  | c :: cs, cur =>
    if c = '\n' then String.mk cur.reverse :: splitLinesAux cs []
    else splitLinesAux cs (c :: cur)

/-- The lines of a string (split at every newline). -/
def splitLines (s : String) : List String := splitLinesAux s.data []

/-- Fixture: an active property. -/
def pD : PropRecord := ⟨some 5, some "active", some "Villa"⟩

/-- Fixture: a reservation for `pD`. -/
def rD : Reservation := ⟨some 5, "2024-01-02"⟩

/-- Fixture: a run with one active property and two identical same-day
check-in reservations for it. -/
def envD : Env :=
  ⟨[pD], [rD, rD], [], fun _ => [], fun _ => [], fun _ _ => "Dirty",
    "2024-01-02", "2024-01-01", "2023-10-04"⟩

/-- Fixture: an active property named `"Twin"`. -/
def pE1 : PropRecord := ⟨some 11, some "active", some "Twin"⟩

/-- Fixture: a second, distinct active property with the same name. -/
def pE2 : PropRecord := ⟨some 12, some "active", some "Twin"⟩

/-- Fixture: a housekeeping task of `pE1`. -/
def tE1 : Task := ⟨some 21, some "housekeeping", some "Clean E1", none, none, []⟩

/-- Fixture: a housekeeping task of `pE2`. -/
def tE2 : Task := ⟨some 22, some "housekeeping", some "Clean E2", none, none, []⟩

/-- Fixture: a run with the two same-named active properties, each with one
housekeeping task scheduled today. -/
def envE : Env :=
  ⟨[pE1, pE2], [], [], fun pid => if pid = some 11 then [tE1] else [tE2],
    fun _ => [], fun _ _ => "Dirty", "2024-01-02", "2024-01-01", "2023-10-04"⟩

/-- Fixture: a completed housekeeping task (detail record). -/
def tA : Task :=
  ⟨some 1, some "housekeeping", some "Clean A", none, some "2024-01-02T10:00:00",
    [⟨some "Alice", some "completed"⟩]⟩

/-- Fixture: a second completed task with the same `finished_at` as `tA`
but a different label and cleaner. -/
def tB : Task :=
  ⟨some 2, some "housekeeping", some "Clean B", none, some "2024-01-02T10:00:00",
    [⟨some "Bob", none⟩]⟩

/-- Fixture: a non-housekeeping task as listed by the window query. -/
def mTask : Task := ⟨some 7, some "maintenance", some "Fix heater", none, none, []⟩

/-- Fixture: the detail record of `mTask`, finished and assigned. -/
def mDetail : Task :=
  ⟨some 7, some "maintenance", some "Fix heater", none, some "2024-01-01T09:00:00",
    [⟨some "Bob", none⟩]⟩

/-- Fixture: a one-page window source answering the housekeeping-filtered
query with `mTask` (a source that does not honor the department filter). -/
def mSrc : Nat → Option TaskPage :=
  fun p => if p = 1 then some ⟨[mTask], some 1, some 1⟩ else none

/-- Fixture: the detail endpoint for `mTask`. -/
def mDet : Nat → Option Task := fun i => if i = 7 then some mDetail else none

/-- Fixture: a run with one inactive property, one check-in reservation
pointing at it, and nothing else. -/
def envC3 : Env :=
  ⟨[⟨some 1, some "inactive", some "P"⟩], [⟨some 1, "2024-01-02"⟩], [],
    fun _ => [], fun _ => [], fun _ _ => "", "2024-01-02", "2024-01-01", "2023-10-04"⟩

/-- Fixture: a run with no records at all. -/
def env0 : Env :=
  ⟨[], [], [], fun _ => [], fun _ => [], fun _ _ => "", "2024-01-02", "2024-01-01",
    "2023-10-04"⟩

/-- Fixture: a completed task finished strictly earlier than `tA`. -/
def tC : Task :=
  ⟨some 3, some "housekeeping", some "Clean C", none, some "2024-01-01T08:00:00", []⟩

/-- Fixture: a one-page window source listing `tA` and `tB`. -/
def wSrc : Nat → Option TaskPage :=
  fun p => if p = 1 then some ⟨[tA, tB], some 1, some 1⟩ else none

/-- Fixture: a detail endpoint answering ids 1 and 2 with `tA` and `tB`. -/
def wDet : Nat → Option Task :=
  fun i => if i = 1 then some tA else if i = 2 then some tB else none

/-! ## Order properties of the embedded string comparison -/

theorem charListLt_irrefl (x : List Char) : charListLt x x = false := by
  induction x with
  | nil => rfl
  | cons a as ih => simp [charListLt, ih]

theorem charListLt_trans :
    ∀ (x y z : List Char), charListLt x y = true → charListLt y z = true →
      charListLt x z = true := by
  intro x
  induction x with
  | nil =>
    intro y z h1 h2
    cases z with
    | nil => cases y with
      | nil => exact h1
      | cons b bs => simp [charListLt] at h2
    | cons c cs => simp [charListLt]
  | cons a as ih =>
    intro y z h1 h2
    cases y with
    | nil => simp [charListLt] at h1
    | cons b bs =>
      cases z with
      | nil => simp [charListLt] at h2
      | cons c cs =>
        simp only [charListLt] at h1 h2 ⊢
        by_cases hab : a < b
        · simp only [if_pos hab] at h1
          by_cases hbc : b < c
          · simp [lt_trans hab hbc]
          · by_cases hcb : c < b
            · simp [hbc, hcb] at h2
            · have hbc' : b = c := le_antisymm (not_lt.mp hcb) (not_lt.mp hbc)
              subst hbc'
              simp [hab]
        · by_cases hba : b < a
          · simp [hab, hba] at h1
          · have hab' : a = b := le_antisymm (not_lt.mp hba) (not_lt.mp hab)
            subst hab'
            simp only [if_neg hab, if_neg hba] at h1
            by_cases hac : a < c
            · simp [hac]
            · by_cases hca : c < a
              · simp [hac, hca] at h2
              · simp only [if_neg hac, if_neg hca] at h2 ⊢
                exact ih bs cs h1 h2

theorem charListLt_antisymm :
    ∀ (x y : List Char), charListLt x y = false → charListLt y x = false → x = y := by
  intro x
  induction x with
  | nil =>
    intro y h1 _
    cases y with
    | nil => rfl
    | cons b bs => simp [charListLt] at h1
  | cons a as ih =>
    intro y h1 h2
    cases y with
    | nil => simp [charListLt] at h2
    | cons b bs =>
      simp only [charListLt] at h1 h2
      by_cases hab : a < b
      · simp [hab] at h1
      · by_cases hba : b < a
        · simp [hba] at h2
        · have hab' : a = b := le_antisymm (not_lt.mp hba) (not_lt.mp hab)
          subst hab'
          simp only [if_neg hab, if_neg hba, lt_irrefl] at h1 h2
          rw [ih bs h1 h2]

theorem strLt_irrefl (s : String) : strLt s s = false := charListLt_irrefl _

theorem strLt_trans {a b c : String} (h1 : strLt a b = true) (h2 : strLt b c = true) :
    strLt a c = true := charListLt_trans _ _ _ h1 h2

theorem strLt_antisymm {a b : String} (h1 : strLt a b = false) (h2 : strLt b a = false) :
    a = b := by
  cases a with
  | mk da =>
    cases b with
    | mk db => exact congrArg String.mk (charListLt_antisymm da db h1 h2)

theorem strLt_neg_trans {a b c : String} (h1 : strLt a b = false)
    (h2 : strLt b c = false) : strLt a c = false := by
  cases hac : strLt a c with
  | false => rfl
  | true =>
    cases hba : strLt b a with
    | true =>
      have hbc := strLt_trans hba hac
      rw [h2] at hbc
      exact hbc.symm
    | false =>
      have hab : a = b := strLt_antisymm h1 hba
      subst hab
      rw [hac] at h2
      exact h2

/-! ## Properties of the max-`finished_at` selection -/

theorem pickFold_spec :
    ∀ (l : List Task) (b : Task),
      ∃ t, l.foldl pickStep (some b) = some t ∧ (t = b ∨ t ∈ l) ∧
        strLt (keyOf t) (keyOf b) = false ∧
        ∀ u ∈ l, strLt (keyOf t) (keyOf u) = false := by
  intro l
  induction l with
  | nil =>
    intro b
    exact ⟨b, rfl, Or.inl rfl, strLt_irrefl _, by simp⟩
  | cons u us ih =>
    intro b
    rw [List.foldl_cons]
    cases hcmp : strLt (keyOf b) (keyOf u) with
    | true =>
      obtain ⟨t, heq, hmem, hb, hall⟩ := ih u
      refine ⟨t, by simpa [pickStep, hcmp] using heq, ?_, ?_, ?_⟩
      · rcases hmem with rfl | hm
        · exact Or.inr (List.mem_cons_self _ _)
        · exact Or.inr (List.mem_cons_of_mem _ hm)
      · cases hx : strLt (keyOf t) (keyOf b) with
        | false => rfl
        | true =>
          have := strLt_trans hx hcmp
          rw [hb] at this
          exact this.symm
      · intro v hv
        rcases List.mem_cons.mp hv with rfl | hm
        · exact hb
        · exact hall v hm
    | false =>
      obtain ⟨t, heq, hmem, hb, hall⟩ := ih b
      refine ⟨t, by simpa [pickStep, hcmp] using heq, ?_, hb, ?_⟩
      · rcases hmem with rfl | hm
        · exact Or.inl rfl
        · exact Or.inr (List.mem_cons_of_mem _ hm)
      · intro v hv
        rcases List.mem_cons.mp hv with rfl | hm
        · exact strLt_neg_trans hb hcmp
        · exact hall v hm

theorem pickLast_spec {l : List Task} (h : l ≠ []) :
    ∃ t, pickLast l = some t ∧ t ∈ l ∧ ∀ u ∈ l, strLt (keyOf t) (keyOf u) = false := by
  cases l with
  | nil => exact absurd rfl h
  | cons u us =>
    obtain ⟨t, heq, hmem, hb, hall⟩ := pickFold_spec us u
    refine ⟨t, by simpa [pickLast, pickStep] using heq, ?_, ?_⟩
    · rcases hmem with rfl | hm
      · exact List.mem_cons_self _ _
      · exact List.mem_cons_of_mem _ hm
    · intro v hv
      rcases List.mem_cons.mp hv with rfl | hm
      · exact hb
      · exact hall v hm

theorem pickLast_eq_none {l : List Task} : pickLast l = none ↔ l = [] := by
  constructor
  · intro h
    by_contra hne
    obtain ⟨t, heq, _, _⟩ := pickLast_spec hne
    rw [heq] at h
    exact Option.noConfusion h
  · intro h
    subst h
    rfl

/-! ## Detail-phase lemmas -/

theorem foldl_fixed_of_mem {α β : Type} {f : α → β → α} :
    ∀ {l : List β}, (∀ b ∈ l, ∀ a, f a b = a) → ∀ a, l.foldl f a = a := by
  intro l
  induction l with
  | nil => intro _ a; rfl
  | cons x xs ih =>
    intro h a
    rw [List.foldl_cons, h x (List.mem_cons_self _ _)]
    exact ih (fun b hb a => h b (List.mem_cons_of_mem _ hb) a) a

theorem detailPhase_of_fail {detail : Nat → Option Task} (h : ∀ i, detail i = none)
    (tasks : List Task) : detailPhase detail tasks = [] := by
  unfold detailPhase
  apply foldl_fixed_of_mem
  intro t _ acc
  cases hid : t.id with
  | none => simp [hid]
  | some i =>
    by_cases hz : i = 0
    · simp [hid, hz]
    · simp [hid, hz, h i]

/-! ## Claim C1 -/

/-- C1: for every window source, detail oracle and pagination fuel,
`get_checkin_cleaning_status` returns exactly `"Dirty"` when the fetched
task window is empty, when every per-task detail fetch fails, or when no
fetched detail record has a truthy `finished_at`; and in every case it
returns a string that is either `"Dirty"` or a `"Ready - ..."` verdict
(the embedded function is total, mirroring the source's never-raise
branches). -/
theorem C1_resolver_dirty_defaults (src : Nat → Option TaskPage)
    (detail : Nat → Option Task) (fuel : Nat) :
    (fetchWindowTasks src fuel 1 [] = [] →
      get_checkin_cleaning_status src detail fuel = "Dirty") ∧
    ((∀ i, detail i = none) →
      get_checkin_cleaning_status src detail fuel = "Dirty") ∧
    ((∀ t ∈ detailPhase detail (fetchWindowTasks src fuel 1 []),
        truthy t.finished_at = false) →
      get_checkin_cleaning_status src detail fuel = "Dirty") ∧
    (get_checkin_cleaning_status src detail fuel = "Dirty" ∨
      ∃ t, get_checkin_cleaning_status src detail fuel = mkReady t) := by
  refine ⟨?_, ?_, ?_, ?_⟩
  · intro h
    simp [get_checkin_cleaning_status, h]
  · intro h
    have hd := detailPhase_of_fail h (fetchWindowTasks src fuel 1 [])
    simp [get_checkin_cleaning_status, hd]
  · intro h
    have hc : completedOf (detailPhase detail (fetchWindowTasks src fuel 1 [])) = [] := by
      apply List.filter_eq_nil_iff.mpr
      intro t ht
      simp [h t ht]
    simp only [get_checkin_cleaning_status, verdictFromDetails, hc]
    simp [pickLast]
  · simp only [get_checkin_cleaning_status, verdictFromDetails]
    split
    · exact Or.inl rfl
    · split
      · exact Or.inl rfl
      · split
        · exact Or.inl rfl
        · exact Or.inr ⟨_, rfl⟩

/-- Witness for C1 at a concrete input: a source whose first page request
fails yields an empty window, hence `"Dirty"`. -/
theorem C1_resolver_dirty_defaults_witness :
    get_checkin_cleaning_status (fun _ => none) (fun _ => none) 1 = "Dirty" :=
  (C1_resolver_dirty_defaults (fun _ => none) (fun _ => none) 1).1 rfl

/-! ## Claim C2 -/

/-- C2: whenever at least one fetched detail record has a truthy
`finished_at`, the verdict is the `"Ready - ..."` string built from a
completed detail record whose `finished_at` is lexicographically maximal
among completed records (Python's stable descending sort picks the
first-seen maximum), with the task label `type` else `name` else
`"Unnamed Task"`, the cleaner the first assignment's name (defaulting to
`"Unknown cleaner"`) and the first 10 characters of `finished_at`. -/
theorem C2_ready_verdict_shape (src : Nat → Option TaskPage)
    (detail : Nat → Option Task) (fuel : Nat)
    (h : ∃ t ∈ detailPhase detail (fetchWindowTasks src fuel 1 []),
      truthy t.finished_at = true) :
    ∃ t ∈ detailPhase detail (fetchWindowTasks src fuel 1 []),
      truthy t.finished_at = true ∧
      (∀ u ∈ detailPhase detail (fetchWindowTasks src fuel 1 []),
        truthy u.finished_at = true →
          strLt (t.finished_at.getD "") (u.finished_at.getD "") = false) ∧
      get_checkin_cleaning_status src detail fuel =
        "Ready - " ++ strOr t.type (strOr t.name "Unnamed Task") ++ " - Cleaned by " ++
          (match t.assignments with
            | [] => "Unknown cleaner"
            | a :: _ => strOr a.name "Unknown cleaner") ++ " - " ++
          (t.finished_at.getD "").take 10 := by
  obtain ⟨t0, ht0mem, ht0⟩ := h
  have hallne : fetchWindowTasks src fuel 1 [] ≠ [] := by
    intro he
    rw [he] at ht0mem
    simp [detailPhase] at ht0mem
  have hdetne : detailPhase detail (fetchWindowTasks src fuel 1 []) ≠ [] := by
    intro he
    rw [he] at ht0mem
    simp at ht0mem
  have hcne : completedOf (detailPhase detail (fetchWindowTasks src fuel 1 [])) ≠ [] := by
    intro he
    have hm : t0 ∈ completedOf (detailPhase detail (fetchWindowTasks src fuel 1 [])) :=
      List.mem_filter.mpr ⟨ht0mem, ht0⟩
    rw [he] at hm
    simp at hm
  obtain ⟨m, hpick, hmem, hmax⟩ := pickLast_spec hcne
  have hmDet : m ∈ detailPhase detail (fetchWindowTasks src fuel 1 []) :=
    (List.mem_filter.mp hmem).1
  have hmC : truthy m.finished_at = true := (List.mem_filter.mp hmem).2
  refine ⟨m, hmDet, hmC, ?_, ?_⟩
  · intro u hu huC
    exact hmax u (List.mem_filter.mpr ⟨hu, huC⟩)
  · have h1 : (fetchWindowTasks src fuel 1 []).isEmpty = false := by
      simp [List.isEmpty_iff]
      exact hallne
    have h2 : (detailPhase detail (fetchWindowTasks src fuel 1 [])).isEmpty = false := by
      simp [List.isEmpty_iff]
      exact hdetne
    simp only [get_checkin_cleaning_status, h1, h2, Bool.false_eq_true, if_false,
      verdictFromDetails, hpick]
    simp [mkReady, taskLabel, cleanerOf, finishedDate, hmC]

/-- Witness for C2: two completed detail records; the verdict is built from
the first-seen maximal one. -/
theorem C2_ready_verdict_shape_witness :
    ∃ t ∈ detailPhase wDet (fetchWindowTasks wSrc 2 1 []),
      truthy t.finished_at = true ∧
      (∀ u ∈ detailPhase wDet (fetchWindowTasks wSrc 2 1 []),
        truthy u.finished_at = true →
          strLt (t.finished_at.getD "") (u.finished_at.getD "") = false) ∧
      get_checkin_cleaning_status wSrc wDet 2 =
        "Ready - " ++ strOr t.type (strOr t.name "Unnamed Task") ++ " - Cleaned by " ++
          (match t.assignments with
            | [] => "Unknown cleaner"
            | a :: _ => strOr a.name "Unknown cleaner") ++ " - " ++
          (t.finished_at.getD "").take 10 :=
  C2_ready_verdict_shape wSrc wDet 2 ⟨tA, by decide, by decide⟩

/-! ## Claim C6 -/

/-- Counterexample to C6 as stated: two detail records tied on
`finished_at` but with different labels; swapping their order changes the
verdict (the stable descending sort keeps the first-seen maximum).  The
last conjunct ties the permuted list to an actual run of
`get_checkin_cleaning_status`. -/
theorem C6_counterexample :
    ([tA, tB] : List Task).Perm [tB, tA] ∧
    verdictFromDetails [tA, tB] ≠ verdictFromDetails [tB, tA] ∧
    get_checkin_cleaning_status wSrc wDet 2 = verdictFromDetails [tA, tB] :=
  ⟨List.Perm.swap tB tA [], by decide, by decide⟩

/-- C6 amended: the verdict is invariant under permutation of the detail
records provided no two completed records share the same `finished_at`
string (no ties among completed tasks). -/
theorem C6_perm_invariant_no_ties (l l' : List Task) (hp : l.Perm l')
    (hnd : ((completedOf l).map keyOf).Nodup) :
    verdictFromDetails l = verdictFromDetails l' := by
  have hpc : (completedOf l).Perm (completedOf l') := List.Perm.filter _ hp
  by_cases hc : completedOf l = []
  · have hc' : completedOf l' = [] := by
      rw [hc] at hpc
      exact hpc.symm.eq_nil
    simp [verdictFromDetails, hc, hc', pickLast]
  · have hc' : completedOf l' ≠ [] := by
      intro he
      rw [he] at hpc
      exact hc hpc.eq_nil
    obtain ⟨t, hpickt, hmemt, hmaxt⟩ := pickLast_spec hc
    obtain ⟨t', hpickt', hmemt', hmaxt'⟩ := pickLast_spec hc'
    have hmt' : t' ∈ completedOf l := (hpc.mem_iff).mpr hmemt'
    have hmt : t ∈ completedOf l' := (hpc.mem_iff).mp hmemt
    have h1 : strLt (keyOf t) (keyOf t') = false := hmaxt t' hmt'
    have h2 : strLt (keyOf t') (keyOf t) = false := hmaxt' t hmt
    have hkey : keyOf t' = keyOf t := strLt_antisymm h2 h1
    have heq : t' = t := List.inj_on_of_nodup_map hnd hmt' hmemt hkey
    rw [verdictFromDetails, verdictFromDetails, hpickt, hpickt', heq]

/-- Witness for the amended C6: two completed records with distinct
`finished_at`, swapped. -/
theorem C6_perm_invariant_no_ties_witness :
    verdictFromDetails [tA, tC] = verdictFromDetails [tC, tA] :=
  C6_perm_invariant_no_ties [tA, tC] [tC, tA] (List.Perm.swap tC tA []) (by decide)

/-! ## Claim C5 -/

theorem fetch_tasks_loop_dept (src : Nat → Option (List Task)) :
    ∀ (fuel page : Nat) (acc : List Task) (reqs : Nat),
      (∀ t ∈ acc, t.type_department = some "housekeeping") →
      ∀ t ∈ (pagedLoop src 100 (fun acc res => acc ++ housekeeping_only res)
        fuel page acc reqs).1, t.type_department = some "housekeeping" := by
  intro fuel
  induction fuel with
  | zero => intro page acc reqs hacc t ht; exact hacc t ht
  | succ n ih =>
    intro page acc reqs hacc t ht
    simp only [pagedLoop] at ht
    cases hsrc : src page with
    | none =>
      rw [hsrc] at ht
      exact hacc t ht
    | some results =>
      rw [hsrc] at ht
      simp only at ht
      have hacc2 : ∀ u ∈ acc ++ housekeeping_only results,
          u.type_department = some "housekeeping" := by
        intro u hu
        rcases List.mem_append.mp hu with h | h
        · exact hacc u h
        · simpa using (List.mem_filter.mp h).2
      by_cases hlen : results.length < 100
      · rw [if_pos hlen] at ht
        exact hacc2 t ht
      · rw [if_neg hlen] at ht
        exact ih (page + 1) _ (reqs + 1) hacc2 t ht

theorem fetchWindowTasks_mem_dept (src : Nat → Option TaskPage)
    (hs : ∀ p pg, src p = some pg →
      ∀ t ∈ pg.results, t.type_department = some "housekeeping") :
    ∀ (fuel p : Nat) (acc : List Task),
      (∀ t ∈ acc, t.type_department = some "housekeeping") →
      ∀ t ∈ fetchWindowTasks src fuel p acc,
        t.type_department = some "housekeeping" := by
  intro fuel
  induction fuel with
  | zero => intro p acc hacc t ht; exact hacc t ht
  | succ n ih =>
    intro p acc hacc t ht
    simp only [fetchWindowTasks] at ht
    cases hsrc : src p with
    | none =>
      rw [hsrc] at ht
      exact hacc t ht
    | some d =>
      rw [hsrc] at ht
      simp only at ht
      have hacc2 : ∀ u ∈ acc ++ d.results, u.type_department = some "housekeeping" := by
        intro u hu
        rcases List.mem_append.mp hu with h | h
        · exact hacc u h
        · exact hs p d hsrc u h
      by_cases hstop : d.total_pages.getD 1 ≤ d.page.getD 1
      · rw [if_pos hstop] at ht
        exact hacc2 t ht
      · rw [if_neg hstop] at ht
        exact ih _ _ hacc2 t ht

/-- Counterexample to C5 as stated: a window source that answers the
housekeeping-filtered query of `get_checkin_cleaning_status` with a
maintenance task.  The function does no client-side department check, so
the record is gathered, its detail is fetched, and it alone determines the
`"Ready - ..."` verdict — it is very much among the tasks considered. -/
theorem C5_counterexample :
    mTask ∈ fetchWindowTasks mSrc 2 1 [] ∧
    mTask.type_department ≠ some "housekeeping" ∧
    mDetail ∈ detailPhase mDet (fetchWindowTasks mSrc 2 1 []) ∧
    get_checkin_cleaning_status mSrc mDet 2 =
      "Ready - Fix heater - Cleaned by Bob - 2024-01-01" :=
  ⟨by decide, by decide, by decide, by decide⟩

/-- C5 amended: no record with a department other than housekeeping ever
appears in the output of `fetch_tasks` (client-side filter, line 125); and
`get_checkin_cleaning_status`, which only forwards the department filter to
the source in its query, considers only housekeeping tasks provided the
source honors that filter. -/
theorem C5_housekeeping_filter :
    (∀ (src : Nat → Option (List Task)) (fuel : Nat),
      ∀ t ∈ (fetch_tasks src fuel).1, t.type_department = some "housekeeping") ∧
    (∀ (src : Nat → Option TaskPage) (fuel : Nat),
      (∀ p pg, src p = some pg →
        ∀ t ∈ pg.results, t.type_department = some "housekeeping") →
      ∀ t ∈ fetchWindowTasks src fuel 1 [],
        t.type_department = some "housekeeping") := by
  constructor
  · intro src fuel t ht
    exact fetch_tasks_loop_dept src fuel 1 [] 0 (by simp) t ht
  · intro src fuel hs t ht
    exact fetchWindowTasks_mem_dept src hs fuel 1 [] (by simp) t ht

/-- Witness for the amended C5 at concrete inputs: a housekeeping task
survives `fetch_tasks` and the window gather, and the theorem certifies its
department. -/
theorem C5_housekeeping_filter_witness :
    tA ∈ (fetch_tasks (chunkSrc [tA] 100) 1).1 ∧
    tA.type_department = some "housekeeping" ∧
    tA ∈ fetchWindowTasks wSrc 2 1 [] ∧
    tA.type_department = some "housekeeping" := by
  refine ⟨by decide, ?_, by decide, ?_⟩
  · exact C5_housekeeping_filter.1 (chunkSrc [tA] 100) 1 tA (by decide)
  · refine C5_housekeeping_filter.2 wSrc 2 ?_ tA (by decide)
    intro p pg h t ht
    by_cases hp : p = 1
    · subst hp
      have h' : pg = ⟨[tA, tB], some 1, some 1⟩ := by
        simp [wSrc] at h
        exact h.symm
      subst h'
      simp only at ht
      rcases List.mem_cons.mp ht with rfl | ht2
      · rfl
      · rcases List.mem_cons.mp ht2 with rfl | ht3
        · rfl
        · simp at ht3
    · simp [wSrc, hp] at h

/-! ## Claim C4 -/

theorem pagedLoop_succ {ρ α : Type} (src : Nat → Option (List ρ)) (limit : Nat)
    (g : α → List ρ → α) (n page : Nat) (acc : α) (reqs : Nat) :
    pagedLoop src limit g (n + 1) page acc reqs =
      match src page with
      | none => (acc, reqs + 1)
      | some results =>
        if results.length < limit then (g acc results, reqs + 1)
        else pagedLoop src limit g n (page + 1) (g acc results) (reqs + 1) := rfl

theorem pagedLoop_chunkSrc {ρ α : Type} (g : α → List ρ → α)
    (hg : ∀ (acc : α) (c1 c2 : List ρ), g (g acc c1) c2 = g acc (c1 ++ c2)) :
    ∀ (fuel : Nat) (records : List ρ) (p : Nat) (acc : α) (reqs : Nat),
      1 ≤ p →
      (records.drop ((p - 1) * 100)).length / 100 < fuel →
      pagedLoop (chunkSrc records 100) 100 g fuel p acc reqs
        = (g acc (records.drop ((p - 1) * 100)),
           reqs + (records.drop ((p - 1) * 100)).length / 100 + 1) := by
  intro fuel
  induction fuel with
  | zero =>
    intro records p acc reqs _ hfuel
    exact absurd hfuel (Nat.not_lt_zero _)
  | succ n ih =>
    intro records p acc reqs hp hfuel
    rw [pagedLoop_succ]
    simp only [chunkSrc]
    by_cases hlen : (records.drop ((p - 1) * 100)).length < 100
    · have htake : (records.drop ((p - 1) * 100)).take 100 = records.drop ((p - 1) * 100) :=
        List.take_of_length_le (le_of_lt hlen)
      rw [htake, if_pos hlen, Nat.div_eq_of_lt hlen]
    · have hlen' : 100 ≤ (records.drop ((p - 1) * 100)).length := le_of_not_lt hlen
      have htlen : ((records.drop ((p - 1) * 100)).take 100).length = 100 := by
        rw [List.length_take]
        exact Nat.min_eq_left hlen'
      rw [htlen, if_neg (lt_irrefl 100)]
      have hdrop : records.drop ((p + 1 - 1) * 100) =
          (records.drop ((p - 1) * 100)).drop 100 := by
        rw [List.drop_drop]
        congr 1
        omega
      have hdiv : (records.drop ((p - 1) * 100)).length / 100 =
          ((records.drop ((p - 1) * 100)).drop 100).length / 100 + 1 := by
        have h1 : ((records.drop ((p - 1) * 100)).drop 100).length =
            (records.drop ((p - 1) * 100)).length - 100 := by
          simp [List.length_drop]
          omega
        rw [h1]
        exact Nat.div_eq_sub_div (by norm_num) hlen'
      have hfuel' : (records.drop ((p + 1 - 1) * 100)).length / 100 < n := by
        rw [hdrop]
        omega
      rw [ih records (p + 1) _ (reqs + 1) (by omega) hfuel', hdrop, hg,
        List.take_append_drop]
      have : reqs + 1 + ((records.drop ((p - 1) * 100)).drop 100).length / 100 + 1 =
          reqs + (records.drop ((p - 1) * 100)).length / 100 + 1 := by omega
      rw [this]

theorem pagedLoop_stop {ρ α : Type} (src : Nat → Option (List ρ)) (g : α → List ρ → α)
    (fuel page : Nat) (acc : α) (reqs : Nat) (h : src page = none) :
    pagedLoop src 100 g (fuel + 1) page acc reqs = (acc, reqs + 1) := by
  rw [pagedLoop_succ, h]

/-- Counterexample to C4 as stated: a well-behaved source holding 0 records
(every page answers the empty batch).  `ceil(0 / 100) = 0`, yet the loop
always issues its first page request, so each fetcher performs 1 request —
more than the claimed bound.  (The same off-by-one occurs whenever the
record count is an exact multiple of the limit.) -/
theorem C4_counterexample :
    (fetch_reservations (chunkSrc ([] : List Reservation) 100) 1).2 = 1 ∧
    (([] : List Reservation).length + 99) / 100 = 0 ∧
    ¬ ((fetch_reservations (chunkSrc ([] : List Reservation) 100) 1).2 ≤
        (([] : List Reservation).length + 99) / 100) :=
  ⟨rfl, rfl, by decide⟩

/-- C4 amended: for a well-behaved source holding `n` records served
100 at a time, each of the three fetch loops issues exactly `n / 100 + 1`
page requests — at most `ceil(n / 100) + 1` — gathering exactly the
processed record stream; and on a non-success response the loop terminates
at once, returning what was gathered so far (stated for each loop body at
an arbitrary page, accumulator and request count). -/
theorem C4_page_requests (rp : List PropRecord) (rr : List Reservation)
    (rt : List Task) (fuel : Nat)
    (hfp : rp.length / 100 < fuel) (hfr : rr.length / 100 < fuel)
    (hft : rt.length / 100 < fuel) :
    fetch_property_map (chunkSrc rp 100) fuel = (buildPropertyMap rp, rp.length / 100 + 1) ∧
    fetch_reservations (chunkSrc rr 100) fuel = (rr, rr.length / 100 + 1) ∧
    fetch_tasks (chunkSrc rt 100) fuel = (housekeeping_only rt, rt.length / 100 + 1) ∧
    (fetch_property_map (chunkSrc rp 100) fuel).2 ≤ (rp.length + 99) / 100 + 1 ∧
    (fetch_reservations (chunkSrc rr 100) fuel).2 ≤ (rr.length + 99) / 100 + 1 ∧
    (fetch_tasks (chunkSrc rt 100) fuel).2 ≤ (rt.length + 99) / 100 + 1 ∧
    (∀ (src : Nat → Option (List PropRecord)) (f2 page : Nat)
        (acc : List (Option Nat × String)) (reqs : Nat), src page = none →
      pagedLoop src 100 (fun m res => res.foldl insertActive m) (f2 + 1) page acc reqs
        = (acc, reqs + 1)) ∧
    (∀ (src : Nat → Option (List Reservation)) (f2 page : Nat)
        (acc : List Reservation) (reqs : Nat), src page = none →
      pagedLoop src 100 (fun acc res => acc ++ res) (f2 + 1) page acc reqs
        = (acc, reqs + 1)) ∧
    (∀ (src : Nat → Option (List Task)) (f2 page : Nat)
        (acc : List Task) (reqs : Nat), src page = none →
      pagedLoop src 100 (fun acc res => acc ++ housekeeping_only res) (f2 + 1) page acc reqs
        = (acc, reqs + 1)) := by
  have hp := pagedLoop_chunkSrc (fun (m : List (Option Nat × String)) res => res.foldl insertActive m)
    (fun acc c1 c2 => (List.foldl_append _ _ _ _).symm) fuel rp 1 [] 0 (le_refl 1)
    (by simpa using hfp)
  have hr := pagedLoop_chunkSrc (fun (acc : List Reservation) res => acc ++ res)
    (fun acc c1 c2 => (List.append_assoc _ _ _)) fuel rr 1 [] 0 (le_refl 1)
    (by simpa using hfr)
  have ht := pagedLoop_chunkSrc (fun (acc : List Task) res => acc ++ housekeeping_only res)
    (fun acc c1 c2 => by
      simp [housekeeping_only, List.filter_append, List.append_assoc]) fuel rt 1 [] 0 (le_refl 1)
    (by simpa using hft)
  simp only [Nat.sub_self, Nat.zero_mul, List.drop_zero] at hp hr ht
  have h1 : fetch_property_map (chunkSrc rp 100) fuel = (buildPropertyMap rp, rp.length / 100 + 1) := by
    rw [fetch_property_map, hp]
    simp [buildPropertyMap]
  have h2 : fetch_reservations (chunkSrc rr 100) fuel = (rr, rr.length / 100 + 1) := by
    rw [fetch_reservations, hr]
    simp
  have h3 : fetch_tasks (chunkSrc rt 100) fuel = (housekeeping_only rt, rt.length / 100 + 1) := by
    rw [fetch_tasks, ht]
    simp
  refine ⟨h1, h2, h3, ?_, ?_, ?_, ?_, ?_, ?_⟩
  · rw [h1]
    exact Nat.add_le_add_right (Nat.div_le_div_right (Nat.le_add_right _ 99)) 1
  · rw [h2]
    exact Nat.add_le_add_right (Nat.div_le_div_right (Nat.le_add_right _ 99)) 1
  · rw [h3]
    exact Nat.add_le_add_right (Nat.div_le_div_right (Nat.le_add_right _ 99)) 1
  · intro src f2 page acc reqs h
    exact pagedLoop_stop src _ f2 page acc reqs h
  · intro src f2 page acc reqs h
    exact pagedLoop_stop src _ f2 page acc reqs h
  · intro src f2 page acc reqs h
    exact pagedLoop_stop src _ f2 page acc reqs h

/-- Witness for the amended C4 at concrete inputs: empty record streams and
a failing source. -/
theorem C4_page_requests_witness :
    fetch_property_map (chunkSrc ([] : List PropRecord) 100) 1 = ([], 1) ∧
    fetch_reservations (chunkSrc ([] : List Reservation) 100) 1 = ([], 1) ∧
    fetch_tasks (chunkSrc ([] : List Task) 100) 1 = ([], 1) ∧
    pagedLoop (fun _ => (none : Option (List Reservation))) 100
      (fun acc res => acc ++ res) 1 1 [] 0 = ([], 1) := by
  have h := C4_page_requests [] [] [] 1 (by decide) (by decide) (by decide)
  exact ⟨h.1, h.2.1, h.2.2.1, h.2.2.2.2.2.2.2.1 (fun _ => none) 0 1 [] 0 rfl⟩

/-! ## Claim C7 -/

theorem pendingCore_eq :
    ∀ (cm : List (String × List String)) (cps : List String) (acc : List String),
      cm.foldl (fun acc e => if e.1 ∈ cps then acc else acc ++ e.2) acc
        = acc ++ (cm.filter (fun e => decide (e.1 ∉ cps))).flatMap Prod.snd := by
  intro cm
  induction cm with
  | nil => intro cps acc; simp
  | cons e es ih =>
    intro cps acc
    rw [List.foldl_cons]
    by_cases h : e.1 ∈ cps
    · rw [if_pos h, ih]
      simp [h]
    · rw [if_neg h, ih]
      simp [h]

/-- C7: in every run, the pending-cleanings lines are exactly the lines of
the task-mapping entries whose property name is absent from the check-out
set — in particular no entry of a property in the check-out set contributes
any line. -/
theorem C7_pending_excludes_checkout_set (env : Env) :
    pendingCore (buildCleaningMap env (buildPropertyMap env.propertyRecords))
        (checkoutState env (buildPropertyMap env.propertyRecords)
          (buildCleaningMap env (buildPropertyMap env.propertyRecords))).1
      = ((buildCleaningMap env (buildPropertyMap env.propertyRecords)).filter
          (fun e => decide (e.1 ∉ (checkoutState env (buildPropertyMap env.propertyRecords)
            (buildCleaningMap env (buildPropertyMap env.propertyRecords))).1))).flatMap
          Prod.snd := by
  rw [pendingCore]
  rw [pendingCore_eq]
  simp

/-! ## Claim C8 -/

theorem any_fst_eq {acc : List (String × Reservation)} {n : String} :
    acc.any (fun e => e.1 = n) = true ↔ n ∈ acc.map Prod.fst := by
  rw [List.any_eq_true]
  constructor
  · rintro ⟨e, he, hee⟩
    exact List.mem_map.mpr ⟨e, he, of_decide_eq_true hee⟩
  · rintro hm
    obtain ⟨e, he, hee⟩ := List.mem_map.mp hm
    exact ⟨e, he, decide_eq_true hee⟩

theorem checkinFold_firstStep (env : Env) (pm : List (Option Nat × String)) :
    ∀ (rs : List Reservation) (acc : List (String × Reservation)),
      rs.foldl (checkinStep env pm)
        (acc.map Prod.fst, acc.map (fun e => checkinLineFor env e.1 e.2.property_id))
      = ((rs.foldl (firstStep pm) acc).map Prod.fst,
         (rs.foldl (firstStep pm) acc).map
           (fun e => checkinLineFor env e.1 e.2.property_id)) := by
  intro rs
  induction rs with
  | nil => intro acc; rfl
  | cons r rs ih =>
    intro acc
    rw [List.foldl_cons, List.foldl_cons]
    cases hd : dget pm r.property_id with
    | none =>
      simp only [checkinStep, firstStep, hd]
      exact ih acc
    | some n =>
      by_cases hmem : acc.any (fun e => e.1 = n) = true
      · have hmem' : n ∈ acc.map Prod.fst := any_fst_eq.mp hmem
        simp only [checkinStep, firstStep, hd, hmem, if_pos hmem', if_true]
        exact ih acc
      · have hmem' : n ∉ acc.map Prod.fst := fun hx => hmem (any_fst_eq.mpr hx)
        have hstep : checkinStep env pm
            (acc.map Prod.fst, acc.map (fun e => checkinLineFor env e.1 e.2.property_id)) r
            = ((acc ++ [(n, r)]).map Prod.fst,
               (acc ++ [(n, r)]).map (fun e => checkinLineFor env e.1 e.2.property_id)) := by
          simp [checkinStep, hd, hmem', List.map_append]
        have hstep' : firstStep pm acc r = acc ++ [(n, r)] := by
          simp only [firstStep, hd]
          rw [if_neg (by simp [hmem])]
        rw [hstep, hstep', ih (acc ++ [(n, r)])]

theorem checkinFold_eq_firstPerName (env : Env) (pm : List (Option Nat × String)) :
    checkinFold env pm
      = ((firstPerName pm env.checkins).map Prod.fst,
         (firstPerName pm env.checkins).map
           (fun e => checkinLineFor env e.1 e.2.property_id)) := by
  have h := checkinFold_firstStep env pm env.checkins []
  simpa [checkinFold, firstPerName] using h

theorem firstPerName_invariant (pm : List (Option Nat × String)) :
    ∀ (rs : List Reservation) (acc : List (String × Reservation)),
      (acc.map Prod.fst).Nodup →
      (((rs.foldl (firstStep pm) acc).map Prod.fst).Nodup ∧
       (∀ n, n ∈ (rs.foldl (firstStep pm) acc).map Prod.fst ↔
          n ∈ acc.map Prod.fst ∨ ∃ r ∈ rs, dget pm r.property_id = some n) ∧
       (∀ e ∈ rs.foldl (firstStep pm) acc,
          e ∈ acc ∨ (e.2 ∈ rs ∧ dget pm e.2.property_id = some e.1))) := by
  intro rs
  induction rs with
  | nil =>
    intro acc h
    exact ⟨h, fun n => by simp, fun e he => Or.inl he⟩
  | cons r rs ih =>
    intro acc h
    rw [List.foldl_cons]
    cases hd : dget pm r.property_id with
    | none =>
      simp only [firstStep, hd]
      obtain ⟨h1, h2, h3⟩ := ih acc h
      refine ⟨h1, fun n => ?_, fun e he => ?_⟩
      · rw [h2 n]
        constructor
        · rintro (hx | ⟨r', hr', hd'⟩)
          · exact Or.inl hx
          · exact Or.inr ⟨r', List.mem_cons_of_mem _ hr', hd'⟩
        · rintro (hx | ⟨r', hr', hd'⟩)
          · exact Or.inl hx
          · rcases List.mem_cons.mp hr' with rfl | hr''
            · rw [hd] at hd'
              exact Option.noConfusion hd'
            · exact Or.inr ⟨r', hr'', hd'⟩
      · rcases h3 e he with hx | ⟨hx1, hx2⟩
        · exact Or.inl hx
        · exact Or.inr ⟨List.mem_cons_of_mem _ hx1, hx2⟩
    | some n0 =>
      by_cases hmem : acc.any (fun e => e.1 = n0) = true
      · have hmem' : n0 ∈ acc.map Prod.fst := any_fst_eq.mp hmem
        simp only [firstStep, hd, hmem, if_true]
        obtain ⟨h1, h2, h3⟩ := ih acc h
        refine ⟨h1, fun n => ?_, fun e he => ?_⟩
        · rw [h2 n]
          constructor
          · rintro (hx | ⟨r', hr', hd'⟩)
            · exact Or.inl hx
            · exact Or.inr ⟨r', List.mem_cons_of_mem _ hr', hd'⟩
          · rintro (hx | ⟨r', hr', hd'⟩)
            · exact Or.inl hx
            · rcases List.mem_cons.mp hr' with rfl | hr''
              · rw [hd] at hd'
                cases hd'
                exact Or.inl hmem'
              · exact Or.inr ⟨r', hr'', hd'⟩
        · rcases h3 e he with hx | ⟨hx1, hx2⟩
          · exact Or.inl hx
          · exact Or.inr ⟨List.mem_cons_of_mem _ hx1, hx2⟩
      · have hmem' : n0 ∉ acc.map Prod.fst := fun hx => hmem (any_fst_eq.mpr hx)
        have hstep : firstStep pm acc r = acc ++ [(n0, r)] := by
          simp only [firstStep, hd]
          rw [if_neg (by simp [hmem])]
        rw [hstep]
        have hnd : ((acc ++ [(n0, r)]).map Prod.fst).Nodup := by
          rw [List.map_append]
          rw [List.nodup_append]
          exact ⟨h, List.nodup_singleton _, by simpa using hmem'⟩
        obtain ⟨h1, h2, h3⟩ := ih (acc ++ [(n0, r)]) hnd
        refine ⟨h1, fun n => ?_, fun e he => ?_⟩
        · rw [h2 n]
          simp only [List.map_append, List.mem_append, List.map_cons, List.map_nil,
            List.mem_singleton]
          constructor
          · rintro ((hx | hx) | ⟨r', hr', hd'⟩)
            · exact Or.inl hx
            · subst hx
              exact Or.inr ⟨r, List.mem_cons_self _ _, hd⟩
            · exact Or.inr ⟨r', List.mem_cons_of_mem _ hr', hd'⟩
          · rintro (hx | ⟨r', hr', hd'⟩)
            · exact Or.inl (Or.inl hx)
            · rcases List.mem_cons.mp hr' with rfl | hr''
              · rw [hd] at hd'
                cases hd'
                exact Or.inl (Or.inr rfl)
              · exact Or.inr ⟨r', hr'', hd'⟩
        · rcases h3 e he with hx | ⟨hx1, hx2⟩
          · rcases List.mem_append.mp hx with hx' | hx'
            · exact Or.inl hx'
            · rcases List.mem_singleton.mp hx' with rfl
              exact Or.inr ⟨List.mem_cons_self _ _, hd⟩
          · exact Or.inr ⟨List.mem_cons_of_mem _ hx1, hx2⟩

/-- C8: in every run the check-ins section emits exactly one verdict line
per first-seen resolvable property name: the emitted lines are in bijection
with the first-seen reservations per name, the emitted names are
duplicate-free, a name is emitted iff some check-in reservation resolves to
it, and each emitted line is computed from its name's first-seen
reservation. -/
theorem C8_checkin_dedup (env : Env) :
    ((checkinFold env (buildPropertyMap env.propertyRecords)).2
      = (firstPerName (buildPropertyMap env.propertyRecords) env.checkins).map
          (fun e => checkinLineFor env e.1 e.2.property_id)) ∧
    ((firstPerName (buildPropertyMap env.propertyRecords) env.checkins).map
        Prod.fst).Nodup ∧
    (∀ n, n ∈ (firstPerName (buildPropertyMap env.propertyRecords) env.checkins).map
        Prod.fst ↔
      ∃ r ∈ env.checkins,
        dget (buildPropertyMap env.propertyRecords) r.property_id = some n) ∧
    (∀ e ∈ firstPerName (buildPropertyMap env.propertyRecords) env.checkins,
      e.2 ∈ env.checkins ∧
        dget (buildPropertyMap env.propertyRecords) e.2.property_id = some e.1) := by
  obtain ⟨h1, h2, h3⟩ := firstPerName_invariant (buildPropertyMap env.propertyRecords)
    env.checkins [] (by simp)
  refine ⟨?_, h1, fun n => ?_, fun e he => ?_⟩
  · rw [checkinFold_eq_firstPerName]
  · simp only [firstPerName]
    rw [h2 n]
    simp
  · rcases h3 e (by simpa [firstPerName] using he) with hx | hx
    · simp at hx
    · exact ⟨hx.1, hx.2⟩

/-- Witness for C8: two identical same-day check-in reservations for the
active property `"Villa"` produce exactly one check-in line. -/
theorem C8_checkin_dedup_witness :
    (checkinFold envD (buildPropertyMap envD.propertyRecords)).2 = ["- Villa - Dirty"] ∧
    ("Villa" ∈ (firstPerName (buildPropertyMap envD.propertyRecords) envD.checkins).map
      Prod.fst) ∧
    rD ∈ envD.checkins := by
  have h := C8_checkin_dedup envD
  refine ⟨?_, ?_, by decide⟩
  · rw [h.1]
    decide
  · exact (h.2.2.1 "Villa").mpr ⟨rD, by decide, by decide⟩

/-! ## Claim C3 -/

theorem insertActive_of_inactive {m : List (Option Nat × String)} {p : PropRecord}
    (h : p.status ≠ some "active") : insertActive m p = m := by
  simp [insertActive, h]

set_option maxRecDepth 4000 in
/-- Counterexample to C3 as stated: a run with zero active properties (one
inactive record) and one check-in reservation pointing at the inactive
property.  The check-ins section renders its header with no placeholder
line at all (the placeholder is emitted only when the fetched check-in
list is empty, not when no line could be resolved), and the
yesterday's-summary section never emits any placeholder — the whole message
ends at that section's header line. -/
theorem C3_counterexample :
    mainReport envC3 =
      "Today’s Cleaning Summary (2024-01-02)\n\nCheck-ins today:\n\nCheck-outs today:\nNo check-outs today.\n\nPending cleanings:\nNo pending cleanings today.\n\n\nYesterday’s Cleaning Summary (2024-01-01)" ∧
    "No check-ins today." ∉ splitLines (mainReport envC3) ∧
    (splitLines (mainReport envC3)).getLast?
      = some "Yesterday’s Cleaning Summary (2024-01-01)" :=
  ⟨by decide, by decide, by decide⟩

/-- C3 amended: when there are zero active properties and both reservation
fetches return no records, the check-ins, check-outs and pending-cleanings
sections each render their header followed by their no-data placeholder
line, the yesterday's-summary section renders only its header (the code
emits no placeholder there), and the combined message is still assembled
and returned. -/
theorem C3_empty_run_message (env : Env)
    (hq : ∀ p ∈ env.propertyRecords, p.status ≠ some "active")
    (hci : env.checkins = []) (hco : env.checkouts = []) :
    checkinLines env (buildPropertyMap env.propertyRecords) = ["No check-ins today."] ∧
    (checkoutState env (buildPropertyMap env.propertyRecords)
      (buildCleaningMap env (buildPropertyMap env.propertyRecords))).2
        = ["No check-outs today."] ∧
    pendingSection (buildCleaningMap env (buildPropertyMap env.propertyRecords))
      (checkoutState env (buildPropertyMap env.propertyRecords)
        (buildCleaningMap env (buildPropertyMap env.propertyRecords))).1
        = ["No pending cleanings today."] ∧
    yesterdayLines env = ["\nYesterday’s Cleaning Summary (" ++ env.yesterday ++ ")"] ∧
    mainReport env =
      "Today’s Cleaning Summary (" ++ env.today ++
        ")\n\nCheck-ins today:\nNo check-ins today.\n\nCheck-outs today:\nNo check-outs today.\n\nPending cleanings:\nNo pending cleanings today.\n\n\nYesterday’s Cleaning Summary ("
        ++ env.yesterday ++ ")" := by
  have hpm : buildPropertyMap env.propertyRecords = [] := by
    rw [buildPropertyMap]
    apply foldl_fixed_of_mem
    intro p hp a
    exact insertActive_of_inactive (hq p hp)
  have hcm : buildCleaningMap env (buildPropertyMap env.propertyRecords) = [] := by
    rw [hpm, buildCleaningMap]
    rfl
  have h1 : checkinLines env (buildPropertyMap env.propertyRecords)
      = ["No check-ins today."] := by
    rw [checkinLines, hci]
    rfl
  have h2 : (checkoutState env (buildPropertyMap env.propertyRecords)
      (buildCleaningMap env (buildPropertyMap env.propertyRecords)))
        = ([], ["No check-outs today."]) := by
    rw [checkoutState, hco]
    rfl
  have h3 : pendingSection (buildCleaningMap env (buildPropertyMap env.propertyRecords))
      (checkoutState env (buildPropertyMap env.propertyRecords)
        (buildCleaningMap env (buildPropertyMap env.propertyRecords))).1
      = ["No pending cleanings today."] := by
    rw [h2, hcm]
    rfl
  have h4 : yesterdayLines env
      = ["\nYesterday’s Cleaning Summary (" ++ env.yesterday ++ ")"] := by
    rw [yesterdayLines, hpm]
    rfl
  refine ⟨h1, by rw [h2], h3, h4, ?_⟩
  simp only [mainReport, fetch_yesterday_cleanings]
  rw [h1, h3, h2, h4]
  apply String.ext
  simp [String.intercalate, String.intercalate.go, String.data_append, List.append_assoc]

set_option maxRecDepth 4000 in
/-- Witness for the amended C3: the all-empty run. -/
theorem C3_empty_run_message_witness :
    mainReport env0 =
      "Today’s Cleaning Summary (2024-01-02)\n\nCheck-ins today:\nNo check-ins today.\n\nCheck-outs today:\nNo check-outs today.\n\nPending cleanings:\nNo pending cleanings today.\n\n\nYesterday’s Cleaning Summary (2024-01-01)" := by
  have h := (C3_empty_run_message env0 (by intro p hp; simp [env0] at hp) rfl rfl).2.2.2.2
  rw [h]
  decide

/-! ## Claim C9 -/

/-- C9: in the yesterday's-summary section a zero-assignment task produces
no line; a housekeeping task produces exactly one line per assignment; and
an assignment's status reads `"Completed"` exactly when its per-user status
equals `"completed"` or the task has a truthy `finished_at`, else
`"Not completed"`. -/
theorem C9_yesterday_assignment_lines (prop_name : String) (task : Task) :
    (task.assignments = [] → yTaskLines prop_name task = []) ∧
    (task.type_department = some "housekeeping" →
      yTaskLines prop_name task = task.assignments.map (fun a =>
        "- " ++ prop_name ++ " - " ++ taskLabel task ++ " - " ++
          strOr a.name "Unknown" ++ " - " ++ yStatus task a)) ∧
    (∀ a : Assignment,
      (yStatus task a = "Completed" ↔
        (a.type_task_user_status = some "completed" ∨ truthy task.finished_at = true)) ∧
      (yStatus task a = "Not completed" ↔
        ¬ (a.type_task_user_status = some "completed" ∨ truthy task.finished_at = true))) := by
  refine ⟨?_, ?_, ?_⟩
  · intro h
    simp [yTaskLines, h]
  · intro h
    rw [yTaskLines, if_neg (by simp [h])]
    cases htask : task.assignments with
    | nil => simp
    | cons x xs => rfl
  · intro a
    rw [yStatus]
    by_cases hcond : a.type_task_user_status = some "completed" ∨ truthy task.finished_at = true
    · rw [if_pos hcond]
      exact ⟨iff_of_true rfl hcond, iff_of_false (by decide) (not_not_intro hcond)⟩
    · rw [if_neg hcond]
      exact ⟨iff_of_false (by decide) hcond, iff_of_true rfl hcond⟩

/-- Witness for C9: a zero-assignment task yields nothing, `tA` yields one
line per assignment, and `tA`'s assignment reads `"Completed"`. -/
theorem C9_yesterday_assignment_lines_witness :
    yTaskLines "Villa" tC = [] ∧
    yTaskLines "Villa" tA = tA.assignments.map (fun a =>
      "- " ++ "Villa" ++ " - " ++ taskLabel tA ++ " - " ++
        strOr a.name "Unknown" ++ " - " ++ yStatus tA a) ∧
    yStatus tA ⟨some "Alice", some "completed"⟩ = "Completed" := by
  refine ⟨(C9_yesterday_assignment_lines "Villa" tC).1 rfl,
    (C9_yesterday_assignment_lines "Villa" tA).2.1 rfl, ?_⟩
  exact ((C9_yesterday_assignment_lines "Villa" tA).2.2
    ⟨some "Alice", some "completed"⟩).1.mpr (Or.inl rfl)

/-! ## Claim C10 -/

/-- C10: the per-property task mapping is keyed by display name.  With two
distinct active properties sharing one name, both with housekeeping tasks
today, the mapping binds the shared name to the later-iterated property's
lines (the earlier property's lines are overwritten), and the check-ins
section emits at most one line for that name. -/
theorem C10_name_keyed_mapping (env : Env) (p1 p2 : PropRecord) (n : String)
    (hrec : env.propertyRecords = [p1, p2])
    (hs1 : p1.status = some "active") (hs2 : p2.status = some "active")
    (hid : p1.id ≠ p2.id)
    (hn1 : strOr p1.name "Unnamed Property" = n)
    (hn2 : strOr p2.name "Unnamed Property" = n)
    (ht1 : housekeeping_only (env.tasksToday p1.id) ≠ [])
    (ht2 : housekeeping_only (env.tasksToday p2.id) ≠ []) :
    dget (buildCleaningMap env (buildPropertyMap env.propertyRecords)) n
      = some ((housekeeping_only (env.tasksToday p2.id)).flatMap (taskLines n)) ∧
    ((firstPerName (buildPropertyMap env.propertyRecords) env.checkins).map
        Prod.fst).count n ≤ 1 := by
  have hpm : buildPropertyMap env.propertyRecords = [(p1.id, n), (p2.id, n)] := by
    rw [hrec]
    simp [buildPropertyMap, insertActive, dinsert, hs1, hs2, hn1, hn2, hid]
  have he1 : (housekeeping_only (env.tasksToday p1.id)).isEmpty = false := by
    simp [List.isEmpty_iff]
    exact ht1
  have he2 : (housekeeping_only (env.tasksToday p2.id)).isEmpty = false := by
    simp [List.isEmpty_iff]
    exact ht2
  constructor
  · rw [hpm]
    simp [buildCleaningMap, dinsert, dget, he1, he2, ht1, ht2]
  · obtain ⟨h1, _, _⟩ := firstPerName_invariant (buildPropertyMap env.propertyRecords)
      env.checkins [] (by simp)
    exact List.nodup_iff_count_le_one.mp h1 n

/-- Witness for C10: the two same-named properties of `envE`; the mapping
holds the second property's task lines under `"Twin"`. -/
theorem C10_name_keyed_mapping_witness :
    dget (buildCleaningMap envE (buildPropertyMap envE.propertyRecords)) "Twin"
      = some ((housekeeping_only (envE.tasksToday pE2.id)).flatMap (taskLines "Twin")) ∧
    ((firstPerName (buildPropertyMap envE.propertyRecords) envE.checkins).map
        Prod.fst).count "Twin" ≤ 1 :=
  C10_name_keyed_mapping envE pE1 pE2 "Twin" rfl rfl rfl (by decide) rfl rfl
    (by decide) (by decide)

end DailyCleaning
